import Mathlib

/-!
Verification of the import/sync validation and reconciliation pipeline of the
software-concepts application.

The embedding below translates, from the TypeScript source:
  * `validateJsonContent` (src/components/concept-view.tsx, settings panel; the
    identical duplicate `validateJson` lives in src/types/concept.ts) — the
    Validator;
  * the title-based merge inside `handleValidatedImport`
    (src/components/concept-view.tsx) — the Reconciler;
  * `handleSyncToDatabase` / `handleSyncFromDatabase`
    (src/components/concept-view.tsx) — the Sync Controller;
  * the `POST` handler of src/app/api/concepts/sync/route.ts — the store-level
    replace-all operation.

JavaScript dynamic values that can arise from `JSON.parse` are modelled by
`JsonValue`; JavaScript truthiness, property access, `?.trim()` and the
object-literal evaluation order (including the `TypeError` a non-string,
non-nullish optional field raises inside the normalisation object literal,
which the source catches in its outer `try`) are modelled explicitly.
`JSON.parse` itself is external library code; the Validator is therefore
embedded over a `ParseResult` (the outcome of the parse), and `new Date()` is
modelled by an explicit clock parameter `now`.
-/

namespace ConceptsApp

/-- A JavaScript value obtainable from `JSON.parse`. -/
inductive JsonValue where
  | null : JsonValue
  | bool : Bool → JsonValue
  | num : Int → JsonValue
  | str : String → JsonValue
  | arr : List JsonValue → JsonValue
  | obj : List (String × JsonValue) → JsonValue

/-- JavaScript truthiness of a JSON value (`[]` and `{}` are truthy). -/
def truthy : JsonValue → Bool
  | .null => false
  | .bool b => b
  | .num n => n != 0
  | .str s => s != ""
  | .arr _ => true
  | .obj _ => true

/-- JS `String.prototype.trim()`: strip leading and trailing whitespace.
Rendered over the character list so that it is kernel-reducible. -/
def jsTrim (s : String) : String :=
  String.mk (((s.data.dropWhile Char.isWhitespace).reverse.dropWhile
    Char.isWhitespace).reverse)

/-- JS `String.prototype.toLowerCase()`. -/
def jsToLower (s : String) : String := String.mk (s.data.map Char.toLower)

/-- Decimal parse of a string, used for JS array index access. -/
def strToNat? (s : String) : Option Nat :=
  if s.data ≠ [] && s.data.all Char.isDigit then
    some (s.data.foldl (fun n d => n * 10 + (d.toNat - 48)) 0)
  else none

/-- Property access `value[key]`: `none` models `undefined`.  On objects it is
the (unique-keyed) member lookup; on arrays, index access; on primitives,
`undefined`. -/
def jsGet : JsonValue → String → Option JsonValue
  | .obj fields, k => fields.lookup k
  | .arr elems, k =>
    match strToNat? k with
    | some i => elems.get? i
    | none => none
  | _, _ => none

/-- JavaScript truthiness of a property access result (`undefined` is falsy). -/
def truthyOpt : Option JsonValue → Bool
  | none => false
  | some v => truthy v

/-- `Object.keys`: member names of an object, index strings of an array. -/
def jsKeys : JsonValue → List String
  | .obj fields => fields.map Prod.fst
  | .arr elems => (List.range elems.length).map toString
  | _ => []

/-- `!concept || typeof concept !== "object"` is false exactly on (truthy)
objects and arrays. -/
def objLike : JsonValue → Bool
  | .arr _ => true
  | .obj _ => true
  | _ => false

def JsonValue.isStr : JsonValue → Bool
  | .str _ => true
  | _ => false

def JsonValue.isNull : JsonValue → Bool
  | .null => true
  | _ => false

/-- Diagnostic severity; the TS union `"error" | "warning" | "info"`. -/
inductive EType where
  | error : EType
  | warning : EType
  | info : EType
deriving DecidableEq

/-- The TS `ValidationError` interface.  Its field `type` is a Lean keyword and
is rendered `etype` here. -/
structure VError where
  etype : EType
  message : String
  line : Option Nat := none
  field : Option String := none
  conceptIndex : Option Nat := none
deriving DecidableEq

/-- `new Date(...)` values: either constructed from a supplied JSON value or
the current instant of the clock `now`. -/
inductive JsDate where
  | fromValue : JsonValue → JsDate
  | now : Nat → JsDate

/-- The `Concept` entity (src/types/concept.ts). -/
structure Concept where
  _id : Option String := none
  topicID : Int
  topic : String
  title : String
  definition : String
  detailedExplanation : String
  whenToUse : String
  whyNeed : String
  codeExample : String
  keyword : String
  differences : String
  createdAt : JsDate
  updatedAt : JsDate

/-- The TS `ValidationResult` interface. -/
structure ValidationResult where
  isValid : Bool
  errors : List VError
  validConcepts : List Concept
  totalConcepts : Nat

/-- Outcome of `JSON.parse(content)`: the parsed value, or the thrown parse
error's message. -/
inductive ParseResult where
  | ok : JsonValue → ParseResult
  | failed : String → ParseResult

def requiredFields : List String := ["title", "topic", "definition", "keyword"]

def optionalFields : List String :=
  ["topicID", "detailedExplanation", "whenToUse", "whyNeed", "codeExample",
   "differences", "createdAt", "updatedAt"]

def allValidFields : List String := requiredFields ++ optionalFields

/-- The regex `/line (\d+)/i` applied to a parse error message: first
case-insensitive occurrence of `line ` followed by digits. -/
def findLineNumber : List Char → Option Nat
  | [] => none
  | c :: cs =>
    if ("line ".toList).isPrefixOf ((c :: cs).map Char.toLower) then
      let ds := ((c :: cs).drop 5).takeWhile Char.isDigit
      if ds.isEmpty then findLineNumber cs
      else some (ds.foldl (fun n d => n * 10 + (d.toNat - 48)) 0)
    else findLineNumber cs

def lineOf (s : String) : Option Nat := findLineNumber s.toList

def mkMissing (f : String) (idx : Nat) : VError :=
  { etype := .error
    message := "Missing required field: \"" ++ f ++ "\""
    field := some f
    conceptIndex := some idx }

def mkWrongType (f : String) (idx : Nat) : VError :=
  { etype := .error
    message := "Field \"" ++ f ++ "\" must be a string"
    field := some f
    conceptIndex := some idx }

def mkEmpty (f : String) (idx : Nat) : VError :=
  { etype := .error
    message := "Field \"" ++ f ++ "\" cannot be empty"
    field := some f
    conceptIndex := some idx }

/-- The required-field checks, in source order: `!concept[field]` (JS
falsiness, so an absent, empty-string, `0`, `false` or `null` value) fires
"missing"; else a non-string fires "must be a string"; else a blank-trimming
string fires "cannot be empty". -/
def checkRequiredField (c : JsonValue) (idx : Nat) (f : String) : List VError :=
  match jsGet c f with
  | none => [mkMissing f idx]
  | some v =>
    if truthy v then
      match v with
      | .str s => if jsTrim s = "" then [mkEmpty f idx] else []
      | _ => [mkWrongType f idx]
    else [mkMissing f idx]

/-- Warnings for keys outside the known field set. -/
def unknownFieldWarnings (c : JsonValue) (idx : Nat) : List VError :=
  (jsKeys c).filterMap fun k =>
    if allValidFields.contains k then none
    else some
      { etype := .warning
        message := "Unknown field \"" ++ k ++ "\" will be ignored"
        field := some k
        conceptIndex := some idx }

/-- The duplicate-title check against the running `seenTitles` set: fires only
when `title` is a truthy string; a repeat of the lower-cased trimmed form
yields a warning, otherwise the form is recorded. -/
def dupTitleCheck (c : JsonValue) (idx : Nat) (seen : List String) :
    List VError × List String :=
  match jsGet c "title" with
  | some (.str s) =>
    if s != "" then
      let titleLower := jsTrim (jsToLower s)
      if seen.contains titleLower then
        ([{ etype := .warning
            message := "Duplicate title \"" ++ s ++
              "\" - only the first occurrence will be imported"
            field := some "title"
            conceptIndex := some idx }], seen)
      else ([], titleLower :: seen)
    else ([], seen)
  | _ => ([], seen)

/-- `topicID`, if present (`!== undefined`), must be a number. -/
def topicIDCheck (c : JsonValue) (idx : Nat) : List VError :=
  match jsGet c "topicID" with
  | none => []
  | some (.num _) => []
  | some _ =>
    [{ etype := .error
       message := "Field \"topicID\" must be a number"
       field := some "topicID"
       conceptIndex := some idx }]

/-- `concept[f]?.trim() || ""`.  A non-nullish, non-string value has no
`trim` method: the expression throws a `TypeError`, modelled as `Except.error`
carrying the engine's message. -/
def trimField (c : JsonValue) (f : String) : Except String String :=
  match jsGet c f with
  | none => .ok ""
  | some .null => .ok ""
  | some (.str s) => .ok (jsTrim s)
  | some _ => .error ("concept." ++ f ++ "?.trim is not a function")

/-- `concept.topicID || 0`.  When normalisation runs, `topicID` is absent or
numeric (a present non-number raised a critical error), so the truthiness
fallback collapses to this. -/
def topicIDValue (c : JsonValue) : Int :=
  match jsGet c "topicID" with
  | some (.num n) => n
  | _ => 0

/-- `concept[f] ? new Date(concept[f]) : new Date()`. -/
def dateField (now : Nat) (c : JsonValue) (f : String) : JsDate :=
  match jsGet c f with
  | some v => if truthy v then .fromValue v else .now now
  | none => .now now

/-- The object literal pushed onto `validConcepts`, with the source's field
evaluation order; the first throwing field aborts the whole validation run. -/
def normalizeConcept (now : Nat) (c : JsonValue) : Except String Concept := do
  let topic ← trimField c "topic"
  let title ← trimField c "title"
  let definition ← trimField c "definition"
  let detailedExplanation ← trimField c "detailedExplanation"
  let whenToUse ← trimField c "whenToUse"
  let whyNeed ← trimField c "whyNeed"
  let codeExample ← trimField c "codeExample"
  let keyword ← trimField c "keyword"
  let differences ← trimField c "differences"
  pure
    { topicID := topicIDValue c
      topic := topic
      title := title
      definition := definition
      detailedExplanation := detailedExplanation
      whenToUse := whenToUse
      whyNeed := whyNeed
      codeExample := codeExample
      keyword := keyword
      differences := differences
      createdAt := dateField now c "createdAt"
      updatedAt := dateField now c "updatedAt" }

/-- One iteration of the `parsedData.forEach` body: the diagnostics it pushes,
the updated seen-titles set, and either the accepted concept (`some`), a
rejection (`none`), or the `TypeError` thrown during normalisation. -/
def validateRecord (now : Nat) (idx : Nat) (seen : List String)
    (c : JsonValue) : List VError × List String × Except String (Option Concept) :=
  if objLike c then
    let conceptErrors :=
      (requiredFields.map (checkRequiredField c idx)).flatten ++
      unknownFieldWarnings c idx ++
      (dupTitleCheck c idx seen).1 ++
      topicIDCheck c idx
    let seen' := (dupTitleCheck c idx seen).2
    if conceptErrors.any (fun e => e.etype == .error) then
      (conceptErrors, seen', .ok none)
    else
      match normalizeConcept now c with
      | .ok k => (conceptErrors, seen', .ok (some k))
      | .error m => (conceptErrors, seen', .error m)
  else
    ([{ etype := .error
        message := "Concept at position " ++ toString (idx + 1) ++
          " is not a valid object"
        conceptIndex := some idx }], seen, .ok none)

/-- The validation loop: accumulated diagnostics, accepted concepts, and the
message of an uncaught `TypeError` if one aborted the loop. -/
def processConcepts (now : Nat) :
    List JsonValue → Nat → List String → List VError → List Concept →
    List VError × List Concept × Option String
  | [], _, _, accE, accV => (accE, accV, none)
  | c :: rest, idx, seen, accE, accV =>
    match validateRecord now idx seen c with
    | (errs, seen', .ok none) =>
      processConcepts now rest (idx + 1) seen' (accE ++ errs) accV
    | (errs, seen', .ok (some k)) =>
      processConcepts now rest (idx + 1) seen' (accE ++ errs) (accV ++ [k])
    | (errs, _, .error m) => (accE ++ errs, accV, some m)

/-- Number of `error`-level diagnostics
(`errors.filter(e => e.type === "error").length`). -/
def countErrors (l : List VError) : Nat :=
  (l.filter fun e => e.etype == .error).length

/-- The Validator (`validateJsonContent`), over the outcome of `JSON.parse`
and the clock `now` supplying `new Date()`. -/
def validateJsonContent (now : Nat) : ParseResult → ValidationResult
  | .failed msg =>
    { isValid := false
      errors := [{ etype := .error
                   message := "JSON parsing failed: " ++ msg
                   line := lineOf msg }]
      validConcepts := []
      totalConcepts := 0 }
  | .ok (.arr records) =>
    if records.isEmpty then
      { isValid := false
        errors := [{ etype := .warning
                     message := "The file contains no concepts to import" }]
        validConcepts := []
        totalConcepts := 0 }
    else
      match processConcepts now records 0 [] [] [] with
      | (errs, valids, none) =>
        let ok := decide (0 < valids.length) && decide (countErrors errs = 0)
        { isValid := ok
          errors := errs ++
            (if ok then
              [{ etype := .info
                 message := "Validation successful! " ++ toString valids.length ++
                   " concepts ready for import" }]
             else [])
          validConcepts := valids
          totalConcepts := records.length }
      | (errs, _, some m) =>
        { isValid := false
          errors := errs ++
            [{ etype := .error
               message := "Unexpected validation error: " ++ m }]
          validConcepts := []
          totalConcepts := records.length }
  | .ok _ =>
    { isValid := false
      errors := [{ etype := .error
                   message := "Root element must be an array of concepts" }]
      validConcepts := []
      totalConcepts := 0 }

/-! ## Reconciler: the title-based merge of `handleValidatedImport` -/

/-- The merge inside `handleValidatedImport`: a case-insensitive set of
existing titles is built, incoming concepts whose lower-cased title is already
present are dropped, and the survivors are appended after the existing set. -/
def mergeConcepts (existing incoming : List Concept) : List Concept :=
  let existingTitles := existing.map fun c => jsToLower c.title
  let newConcepts :=
    incoming.filter fun c => !(existingTitles.contains (jsToLower c.title))
  existing ++ newConcepts

/-! ## Sync Controller: `handleSyncToDatabase` / `handleSyncFromDatabase` -/

/-- Toast variant; omitting `variant` in the source means the default
(informational) styling, `"destructive"` marks a failure. -/
inductive ToastVariant where
  | default : ToastVariant
  | destructive : ToastVariant
deriving DecidableEq

structure Toast where
  title : String
  description : String
  variant : ToastVariant := .default
deriving DecidableEq

/-- The JSON body of a response from the sync route, as consumed by the
handlers (absent members are `none`). -/
structure SyncResponse where
  success : Bool
  message : Option String := none
  count : Option Nat := none
  error : Option String := none
  details : Option String := none
  concepts : Option (List Concept) := none

/-- Outcome of `fetch(...)`: a decoded response, or a thrown network error. -/
inductive FetchOutcome where
  | response : SyncResponse → FetchOutcome
  | netError : String → FetchOutcome

/-- JS `a || b` on an optional string (`none`, the empty string count as
falsy). -/
def jsStrOr (o : Option String) (d : String) : String :=
  match o with
  | some s => if s != "" then s else d
  | none => d

/-- JS `a || b` on an optional count (`none` and `0` are falsy). -/
def jsCountOr (o : Option Nat) (d : Nat) : Nat :=
  match o with
  | some n => if n != 0 then n else d
  | none => d

/-- Substring containment on character lists (JS `String.prototype.includes`). -/
def containsSub : List Char → List Char → Bool
  | l, sub =>
    match l with
    | [] => sub.isEmpty
    | _ :: t => sub.isPrefixOf l || containsSub t sub

def jsIncludes (s sub : String) : Bool := containsSub s.data sub.data

/-- The error-message classification shared by both sync handlers' `catch`
blocks. -/
def classifySyncError (m : String) : String :=
  if jsIncludes m "Failed to fetch" || jsIncludes m "NetworkError" then
    "Network error: Please check your internet connection and try again."
  else if jsIncludes m "Database connection failed" then
    "Database connection failed. Please check your database configuration."
  else m

/-- What a run of `handleSyncToDatabase` produces: the surfaced toast, whether
the Store Gateway's replace-all request (`POST /api/concepts/sync`) was issued,
and the local set afterwards (this handler never mutates it). -/
structure SyncToOutcome where
  toast : Toast
  replaceAllCalled : Bool
  localAfter : List Concept

/-- `handleSyncToDatabase`: fails fast on an empty local set, otherwise sends
the whole set to the sync route and classifies any failure. -/
def handleSyncToDatabase (concepts : List Concept) (fetch : FetchOutcome) :
    SyncToOutcome :=
  if concepts.isEmpty then
    { toast :=
        { title := "Nothing to sync"
          description := "You don't have any concepts to sync. Add some concepts first."
          variant := .destructive }
      replaceAllCalled := false
      localAfter := concepts }
  else
    match fetch with
    | .response r =>
      if r.success then
        { toast :=
            { title := "Sync successful"
              description := jsStrOr r.message
                ("Successfully synced " ++
                  toString (jsCountOr r.count concepts.length) ++
                  " concepts to database.") }
          replaceAllCalled := true
          localAfter := concepts }
      else
        { toast :=
            { title := "Sync failed"
              description :=
                classifySyncError (jsStrOr r.details (jsStrOr r.error "Sync failed"))
              variant := .destructive }
          replaceAllCalled := true
          localAfter := concepts }
    | .netError m =>
      { toast :=
          { title := "Sync failed"
            description := classifySyncError m
            variant := .destructive }
        replaceAllCalled := true
        localAfter := concepts }

/-- What a run of `handleSyncFromDatabase` produces: the surfaced toast, the
in-memory local set afterwards, and the `localStorage` cache afterwards. -/
structure SyncFromOutcome where
  toast : Toast
  localAfter : List Concept
  cacheAfter : List Concept

/-- `handleSyncFromDatabase`: a successful fetch of an empty remote set leaves
everything untouched and reports informationally; a non-empty remote set
replaces both the in-memory set and the cache. -/
def handleSyncFromDatabase (concepts cache : List Concept)
    (fetch : FetchOutcome) : SyncFromOutcome :=
  match fetch with
  | .response r =>
    if r.success then
      let databaseConcepts := r.concepts.getD []
      if databaseConcepts.isEmpty then
        { toast :=
            { title := "No data found"
              description := "No concepts found in the database to sync." }
          localAfter := concepts
          cacheAfter := cache }
      else
        { toast :=
            { title := "Sync successful"
              description := "Successfully synced " ++
                toString databaseConcepts.length ++
                " concepts from database to local storage." }
          localAfter := databaseConcepts
          cacheAfter := databaseConcepts }
    else
      { toast :=
          { title := "Sync failed"
            description := classifySyncError
              (jsStrOr r.details (jsStrOr r.error "Failed to fetch from database"))
            variant := .destructive }
        localAfter := concepts
        cacheAfter := cache }
  | .netError m =>
    { toast :=
        { title := "Sync failed"
          description := classifySyncError m
          variant := .destructive }
      localAfter := concepts
      cacheAfter := cache }

/-! ## The store-level replace-all: `POST /api/concepts/sync` -/

/-- A JSON response of the sync route together with its HTTP status. -/
structure RouteResponse where
  status : Nat
  success : Bool
  message : Option String := none
  error : Option String := none
  details : Option String := none
  count : Option Nat := none
deriving DecidableEq

/-- The route's validation loop: first record index and required field failing
`!concept[field]`, scanning records and fields in order.  A `null` record
makes the member access itself throw a `TypeError` (`Except.error`). -/
def findInvalidConcept :
    List JsonValue → Nat → Except Unit (Option (Nat × String))
  | [], _ => .ok none
  | c :: rest, i =>
    if c.isNull then .error ()
    else
      match requiredFields.find? (fun f => !truthyOpt (jsGet c f)) with
      | some f => .ok (some (i, f))
      | none => findInvalidConcept rest (i + 1)

/-- Whether a document satisfies the Mongoose `ConceptSchema`'s required
paths (src/models/Concept.ts: `topicID` a required number; `topic`, `title`,
`definition`, `keyword` required non-empty strings); the precision of Mongoose
casting beyond this is not load-bearing for any claim. -/
def schemaValidConcept (c : JsonValue) : Bool :=
  (match jsGet c "topicID" with
   | some (.num _) => true
   | _ => false) &&
  (["topic", "title", "definition", "keyword"].all fun f =>
    match jsGet c f with
    | some (.str s) => s != ""
    | _ => false)

def invalidDataFormatResponse : RouteResponse :=
  { status := 400
    success := false
    error := some "Invalid data format"
    details := some "Expected an array of concepts but received different data type" }

def internalServerErrorResponse : RouteResponse :=
  { status := 500
    success := false
    error := some "Internal server error"
    details := some "An unexpected error occurred while syncing data. Please try again later." }

/-- The `POST` handler of src/app/api/concepts/sync/route.ts over the parsed
request body and the backing store's document list (the database transport is
modelled as available; transport failures are outside these claims).  Returns
the store afterwards and the HTTP response. -/
def postSync (store : List JsonValue) (body : JsonValue) :
    List JsonValue × RouteResponse :=
  match body with
  | .null => (store, internalServerErrorResponse)
  | _ =>
    match jsGet body "concepts" with
    | some (.arr concepts) =>
      match findInvalidConcept concepts 0 with
      | .error _ => (store, internalServerErrorResponse)
      | .ok (some (i, f)) =>
        (store,
          { status := 400
            success := false
            error := some "Invalid concept data"
            details := some ("Concept at index " ++ toString i ++
              " is missing required field: " ++ f) })
      | .ok none =>
        -- `deleteMany({})` clears the store; `insertMany` (run only on a
        -- non-empty list) validates against the schema and inserts nothing
        -- when validation fails.
        if concepts.all schemaValidConcept then
          (concepts,
            { status := 200
              success := true
              message := some ("Successfully synced " ++
                toString concepts.length ++ " concepts to database")
              count := some concepts.length })
        else
          ([],
            { status := 400
              success := false
              error := some "Data validation failed"
              details := some "One or more concepts contain invalid data that doesn't match the required format." })
    | _ => (store, invalidDataFormatResponse)

/-! ## Well-formedness of an import record

A record is well-formed in the sense of spec §3/§8 when it is an object whose
four required fields are non-blank strings, whose `topicID` (if present) is
numeric, and whose optional text fields (if present) are strings or null — the
shape every claim about "well-formed records" quantifies over. -/

def requiredOk (c : JsonValue) (f : String) : Bool :=
  match jsGet c f with
  | some (.str s) => s != "" && jsTrim s != ""
  | _ => false

def topicIDOk (c : JsonValue) : Bool :=
  match jsGet c "topicID" with
  | none => true
  | some (.num _) => true
  | some _ => false

def optionalTextOk (c : JsonValue) (f : String) : Bool :=
  match jsGet c f with
  | none => true
  | some .null => true
  | some (.str _) => true
  | some _ => false

def isWellFormedRecord (c : JsonValue) : Bool :=
  objLike c &&
  requiredFields.all (requiredOk c) &&
  topicIDOk c &&
  (["detailedExplanation", "whenToUse", "whyNeed", "codeExample",
    "differences"].all (optionalTextOk c))

/-! ## Basic lemmas about the diagnostic machinery -/

theorem countErrors_append (a b : List VError) :
    countErrors (a ++ b) = countErrors a + countErrors b := by
  simp [countErrors, List.filter_append]

theorem countErrors_eq_zero {l : List VError} :
    countErrors l = 0 ↔ ∀ e ∈ l, e.etype ≠ EType.error := by
  simp [countErrors, List.length_eq_zero, List.filter_eq_nil_iff]

theorem mem_unknownFieldWarnings {e : VError} {c : JsonValue} {idx : Nat}
    (h : e ∈ unknownFieldWarnings c idx) : e.etype = EType.warning := by
  simp only [unknownFieldWarnings, List.mem_filterMap] at h
  obtain ⟨k, -, hk⟩ := h
  split at hk
  · simp at hk
  · rw [← Option.some.inj hk]

theorem mem_dupTitleCheck {e : VError} {c : JsonValue} {idx : Nat}
    {seen : List String} (h : e ∈ (dupTitleCheck c idx seen).1) :
    e.etype = EType.warning := by
  unfold dupTitleCheck at h
  split at h
  · split at h
    · dsimp only at h
      split at h
      · simp at h
        rw [h]
      · simp at h
    · simp at h
  · simp at h

theorem checkRequiredField_of_requiredOk {c : JsonValue} {f : String}
    (h : requiredOk c f = true) (idx : Nat) :
    checkRequiredField c idx f = [] := by
  unfold requiredOk at h
  rcases hg : jsGet c f with - | v
  · simp [hg] at h
  · rcases v with - | b | n | s | xs | fs <;> simp [hg] at h
    obtain ⟨h1, h2⟩ := h
    simp [checkRequiredField, hg, truthy, h1, h2]

theorem topicIDCheck_of_ok {c : JsonValue} (h : topicIDOk c = true)
    (idx : Nat) : topicIDCheck c idx = [] := by
  unfold topicIDOk at h
  rcases hg : jsGet c "topicID" with - | v
  · simp [topicIDCheck, hg]
  · rcases v with - | b | n | s | xs | fs <;> simp [hg] at h <;>
      simp [topicIDCheck, hg]

theorem trimField_ok_of_requiredOk {c : JsonValue} {f : String}
    (h : requiredOk c f = true) :
    ∃ s, jsGet c f = some (.str s) ∧ trimField c f = .ok (jsTrim s) := by
  unfold requiredOk at h
  rcases hg : jsGet c f with - | v
  · simp [hg] at h
  · rcases v with - | b | n | s | xs | fs <;> simp [hg] at h
    exact ⟨s, rfl, by simp [trimField, hg]⟩

theorem trimField_isOk_of_optionalTextOk {c : JsonValue} {f : String}
    (h : optionalTextOk c f = true) : ∃ s, trimField c f = .ok s := by
  unfold optionalTextOk at h
  rcases hg : jsGet c f with - | v
  · exact ⟨"", by simp [trimField, hg]⟩
  · rcases v with - | b | n | s | xs | fs <;> simp [hg] at h
    · exact ⟨"", by simp [trimField, hg]⟩
    · exact ⟨jsTrim s, by simp [trimField, hg]⟩

theorem isWellFormedRecord_parts {c : JsonValue}
    (h : isWellFormedRecord c = true) :
    objLike c = true ∧ (∀ f ∈ requiredFields, requiredOk c f = true) ∧
    topicIDOk c = true ∧
    (∀ f ∈ ["detailedExplanation", "whenToUse", "whyNeed", "codeExample",
      "differences"], optionalTextOk c f = true) := by
  simp only [isWellFormedRecord, Bool.and_eq_true, List.all_eq_true] at h
  obtain ⟨⟨⟨hobj, hreq⟩, htid⟩, hopt⟩ := h
  exact ⟨hobj, hreq, htid, hopt⟩

theorem normalizeConcept_ok {c : JsonValue} (h : isWellFormedRecord c = true)
    (now : Nat) : ∃ k, normalizeConcept now c = .ok k := by
  obtain ⟨-, hreq, -, hopt⟩ := isWellFormedRecord_parts h
  obtain ⟨s1, -, ht1⟩ := trimField_ok_of_requiredOk (hreq "topic" (by simp [requiredFields]))
  obtain ⟨s2, -, ht2⟩ := trimField_ok_of_requiredOk (hreq "title" (by simp [requiredFields]))
  obtain ⟨s3, -, ht3⟩ := trimField_ok_of_requiredOk (hreq "definition" (by simp [requiredFields]))
  obtain ⟨s4, -, ht4⟩ := trimField_ok_of_requiredOk (hreq "keyword" (by simp [requiredFields]))
  obtain ⟨s5, ht5⟩ := trimField_isOk_of_optionalTextOk (hopt "detailedExplanation" (by simp))
  obtain ⟨s6, ht6⟩ := trimField_isOk_of_optionalTextOk (hopt "whenToUse" (by simp))
  obtain ⟨s7, ht7⟩ := trimField_isOk_of_optionalTextOk (hopt "whyNeed" (by simp))
  obtain ⟨s8, ht8⟩ := trimField_isOk_of_optionalTextOk (hopt "codeExample" (by simp))
  obtain ⟨s9, ht9⟩ := trimField_isOk_of_optionalTextOk (hopt "differences" (by simp))
  refine ⟨
      { topicID := topicIDValue c
        topic := jsTrim s1
        title := jsTrim s2
        definition := jsTrim s3
        detailedExplanation := s5
        whenToUse := s6
        whyNeed := s7
        codeExample := s8
        keyword := jsTrim s4
        differences := s9
        createdAt := dateField now c "createdAt"
        updatedAt := dateField now c "updatedAt" }, ?_⟩
  simp [normalizeConcept, ht1, ht2, ht3, ht4, ht5, ht6, ht7, ht8, ht9,
    Bind.bind, Except.bind, pure, Except.pure]

theorem validateRecord_wellFormed {c : JsonValue}
    (h : isWellFormedRecord c = true) (now idx : Nat) (seen : List String) :
    ∃ errs seen' k, validateRecord now idx seen c = (errs, seen', .ok (some k)) ∧
      countErrors errs = 0 := by
  obtain ⟨hobj, hreq, htid, -⟩ := isWellFormedRecord_parts h
  have hflat : (requiredFields.map (checkRequiredField c idx)).flatten = [] := by
    simp only [List.flatten_eq_nil_iff, List.mem_map]
    rintro l ⟨f, hf, rfl⟩
    exact checkRequiredField_of_requiredOk (hreq f hf) idx
  have htc : topicIDCheck c idx = [] := topicIDCheck_of_ok htid idx
  have hnoerr : ∀ e ∈ (requiredFields.map (checkRequiredField c idx)).flatten ++
      unknownFieldWarnings c idx ++ (dupTitleCheck c idx seen).1 ++
      topicIDCheck c idx, e.etype ≠ EType.error := by
    intro e he
    simp only [List.mem_append] at he
    rcases he with ((he | he) | he) | he
    · rw [hflat] at he; simp at he
    · rw [mem_unknownFieldWarnings he]; simp
    · rw [mem_dupTitleCheck he]; simp
    · rw [htc] at he; simp at he
  have hany : ((requiredFields.map (checkRequiredField c idx)).flatten ++
      unknownFieldWarnings c idx ++ (dupTitleCheck c idx seen).1 ++
      topicIDCheck c idx).any (fun e => e.etype == EType.error) = false := by
    simp only [List.any_eq_false, beq_iff_eq]
    exact hnoerr
  obtain ⟨k, hk⟩ := normalizeConcept_ok h now
  have heq : validateRecord now idx seen c =
      ((requiredFields.map (checkRequiredField c idx)).flatten ++
        unknownFieldWarnings c idx ++ (dupTitleCheck c idx seen).1 ++
        topicIDCheck c idx, (dupTitleCheck c idx seen).2, .ok (some k)) := by
    simp only [validateRecord, hobj, if_true, hany, Bool.false_eq_true,
      if_false, hk]
  exact ⟨_, _, k, heq, countErrors_eq_zero.mpr hnoerr⟩

theorem processConcepts_wellFormed (now : Nat) (l : List JsonValue)
    (h : ∀ c ∈ l, isWellFormedRecord c = true) :
    ∀ (idx : Nat) (seen : List String) (accE : List VError)
      (accV : List Concept),
      ∃ errs valids,
        processConcepts now l idx seen accE accV = (errs, valids, none) ∧
        countErrors errs = countErrors accE ∧
        valids.length = accV.length + l.length := by
  induction l with
  | nil => intro idx seen accE accV; exact ⟨accE, accV, rfl, rfl, by simp⟩
  | cons c rest ih =>
    intro idx seen accE accV
    obtain ⟨errs_c, seen', k, heq, hcnt⟩ :=
      validateRecord_wellFormed (h c (by simp)) now idx seen
    obtain ⟨errs, valids, hrec, hrcnt, hrlen⟩ :=
      ih (fun c hc => h c (by simp [hc])) (idx + 1) seen' (accE ++ errs_c)
        (accV ++ [k])
    refine ⟨errs, valids, ?_, ?_, ?_⟩
    · simp only [processConcepts, heq, hrec]
    · rw [hrcnt, countErrors_append, hcnt]
      omega
    · rw [hrlen]; simp; omega


/-- The `isValid` flag of any validation result equals
"some record accepted AND no error-level diagnostic". -/
theorem validator_isValid_eq (now : Nat) (pr : ParseResult) :
    (validateJsonContent now pr).isValid =
      (decide (0 < (validateJsonContent now pr).validConcepts.length) &&
       decide (countErrors (validateJsonContent now pr).errors = 0)) := by
  cases pr with
  | failed msg => simp [validateJsonContent, countErrors]
  | ok v =>
    cases v with
    | arr records =>
      by_cases hre : records.isEmpty
      · simp [validateJsonContent, hre, countErrors]
      · rcases hp : processConcepts now records 0 [] [] [] with ⟨errs, valids, thrown⟩
        cases thrown with
        | none =>
          simp only [validateJsonContent, hre, if_false, hp]
          by_cases hv : 0 < valids.length
          · by_cases hc : countErrors errs = 0
            · simp [hv, hc, countErrors_append, countErrors]
            · simp [hv, hc, countErrors_append]
          · simp [hv]
        | some m =>
          simp [validateJsonContent, hre, hp]
    | null => simp [validateJsonContent, countErrors]
    | bool b => simp [validateJsonContent, countErrors]
    | num n => simp [validateJsonContent, countErrors]
    | str s => simp [validateJsonContent, countErrors]
    | obj fields => simp [validateJsonContent, countErrors]

/-- A well-formed sample record used to witness C1. -/
def c1Sample : JsonValue :=
  .obj [("title", .str "Closure"), ("topic", .str "JS"),
        ("definition", .str "A function with captured scope"),
        ("keyword", .str "closure")]

/-- C1: for any parsed input, `isValid` equals "at least one record accepted
AND zero error-level diagnostics in the batch"; every non-empty batch of
well-formed records validates with all records accepted; and any result
carrying an error-level diagnostic is invalid. -/
theorem C1_validator_overall_validity_flag :
    (∀ (now : Nat) (pr : ParseResult),
      (validateJsonContent now pr).isValid =
        (decide (0 < (validateJsonContent now pr).validConcepts.length) &&
         decide (countErrors (validateJsonContent now pr).errors = 0))) ∧
    (∀ (now : Nat) (l : List JsonValue), l ≠ [] →
      (∀ c ∈ l, isWellFormedRecord c = true) →
      (validateJsonContent now (.ok (.arr l))).isValid = true ∧
      (validateJsonContent now (.ok (.arr l))).validConcepts.length = l.length) ∧
    (∀ (now : Nat) (pr : ParseResult),
      0 < countErrors (validateJsonContent now pr).errors →
      (validateJsonContent now pr).isValid = false) := by
  refine ⟨validator_isValid_eq, ?_, ?_⟩
  · intro now l hne h
    obtain ⟨errs, valids, hp, hcnt, hlen⟩ :=
      processConcepts_wellFormed now l h 0 [] [] []
    have hre : l.isEmpty = false := by
      simpa [List.isEmpty_iff] using hne
    have hcnt0 : countErrors errs = 0 := by
      simpa [countErrors] using hcnt
    have hlen0 : valids.length = l.length := by simpa using hlen
    have hpos : 0 < valids.length := by
      rw [hlen0]; exact List.length_pos.mpr hne
    constructor
    · simp only [validateJsonContent, hre, Bool.false_eq_true, if_false, hp]
      simp [hpos, hcnt0]
    · simp only [validateJsonContent, hre, Bool.false_eq_true, if_false, hp]
      exact hlen0
  · intro now pr h
    rw [validator_isValid_eq]
    have : ¬ countErrors (validateJsonContent now pr).errors = 0 := by omega
    simp [this]

theorem C1_validator_overall_validity_flag_witness :
    (validateJsonContent 0 (.ok (.arr [c1Sample]))).isValid = true ∧
    (validateJsonContent 0 (.ok (.arr [c1Sample]))).validConcepts.length = 1 :=
  C1_validator_overall_validity_flag.2.1 0 [c1Sample] (by simp)
    (by intro c hc; rw [List.mem_singleton] at hc; subst hc; decide)

/-- C5: non-parseable input yields exactly one diagnostic, of level `error`,
whose message embeds the parse failure detail, with `totalConcepts = 0`, no
valid records and `isValid = false`; no further validation runs (the Validator
returns rather than throwing). -/
theorem C5_malformed_input_single_error (now : Nat) (msg : String) :
    (validateJsonContent now (.failed msg)).errors =
      [{ etype := .error, message := "JSON parsing failed: " ++ msg,
         line := lineOf msg }] ∧
    (∃ pre, "JSON parsing failed: " ++ msg = pre ++ msg) ∧
    (validateJsonContent now (.failed msg)).totalConcepts = 0 ∧
    (validateJsonContent now (.failed msg)).validConcepts = [] ∧
    (validateJsonContent now (.failed msg)).isValid = false :=
  ⟨rfl, ⟨"JSON parsing failed: ", rfl⟩, rfl, rfl, rfl⟩

/-- C6: an empty parsed array yields `isValid = false`, zero valid records,
`totalConcepts = 0`, and a single diagnostic of level `warning` (not
`error`). -/
theorem C6_empty_batch_single_warning (now : Nat) :
    (validateJsonContent now (.ok (.arr []))).isValid = false ∧
    (validateJsonContent now (.ok (.arr []))).validConcepts = [] ∧
    (validateJsonContent now (.ok (.arr []))).totalConcepts = 0 ∧
    (validateJsonContent now (.ok (.arr []))).errors =
      [{ etype := .warning,
         message := "The file contains no concepts to import" }] :=
  ⟨rfl, rfl, rfl, rfl⟩

def c7First : JsonValue :=
  .obj [("title", .str "A"), ("topic", .str "T"),
        ("definition", .str "D"), ("keyword", .str "K")]

def c7Second : JsonValue :=
  .obj [("title", .str "a"), ("topic", .str "T2"),
        ("definition", .str "D2"), ("keyword", .str "K2")]

def c7Result : ValidationResult :=
  validateJsonContent 0 (.ok (.arr [c7First, c7Second]))

/-- C7: the two-record batch with case-insensitively duplicate titles parses
2 records, produces exactly one warning (the duplicate title), accepts both
records and is valid; and in general a well-formed record is accepted
whatever the seen-titles set already contains — a duplicate title never
blocks acceptance. -/
theorem C7_duplicate_title_warns_but_accepts :
    c7Result.totalConcepts = 2 ∧
    (c7Result.errors.filter fun e => e.etype == .warning).map
        (fun e => e.message) =
      ["Duplicate title \"a\" - only the first occurrence will be imported"] ∧
    c7Result.validConcepts.length = 2 ∧
    c7Result.isValid = true ∧
    (∀ (now idx : Nat) (seen : List String) (c : JsonValue),
      isWellFormedRecord c = true →
      ∃ errs seen' k,
        validateRecord now idx seen c = (errs, seen', .ok (some k)) ∧
        countErrors errs = 0) := by
  refine ⟨by decide, by decide, by decide, by decide, ?_⟩
  intro now idx seen c h
  exact validateRecord_wellFormed h now idx seen

theorem C7_duplicate_title_warns_but_accepts_witness :
    ∃ errs seen' k,
      validateRecord 0 1 ["a"] c7Second = (errs, seen', .ok (some k)) ∧
      countErrors errs = 0 :=
  C7_duplicate_title_warns_but_accepts.2.2.2.2 0 1 ["a"] c7Second (by decide)

/-- C3: the merge's length is the existing length plus the number of incoming
records whose lower-cased title is new; the result is the unmodified existing
records followed by exactly those incoming records; and merging the same
incoming set a second time changes nothing. -/
theorem C3_merge_additive_and_idempotent :
    (∀ existing incoming : List Concept,
      (mergeConcepts existing incoming).length =
        existing.length + (incoming.filter fun c =>
          !((existing.map fun x => jsToLower x.title).contains
            (jsToLower c.title))).length) ∧
    (∀ existing incoming : List Concept,
      mergeConcepts existing incoming =
        existing ++ (incoming.filter fun c =>
          !((existing.map fun x => jsToLower x.title).contains
            (jsToLower c.title)))) ∧
    (∀ existing incoming : List Concept,
      mergeConcepts (mergeConcepts existing incoming) incoming =
        mergeConcepts existing incoming) := by
  have heq : ∀ a b : List Concept,
      mergeConcepts a b =
        a ++ (b.filter fun c =>
          !((a.map fun x => jsToLower x.title).contains (jsToLower c.title))) :=
    fun a b => rfl
  refine ⟨?_, heq, ?_⟩
  · intro e i; rw [heq]; simp
  · intro e i
    rw [heq (mergeConcepts e i) i]
    have hnil : (i.filter fun c =>
        !(((mergeConcepts e i).map fun x => jsToLower x.title).contains
          (jsToLower c.title))) = [] := by
      rw [List.filter_eq_nil_iff]
      intro c hc
      simp only [Bool.not_eq_true', Bool.not_eq_eq_eq_not, Bool.not_true,
        Bool.not_eq_false]
      have hmem : jsToLower c.title ∈
          ((mergeConcepts e i).map fun x => jsToLower x.title) := by
        rw [heq, List.map_append, List.mem_append]
        by_cases hm : jsToLower c.title ∈ (e.map fun x => jsToLower x.title)
        · exact Or.inl hm
        · refine Or.inr (List.mem_map.mpr ⟨c, ?_, rfl⟩)
          rw [List.mem_filter]
          refine ⟨hc, ?_⟩
          simp only [Bool.not_eq_true', Bool.not_eq_eq_eq_not, Bool.not_true,
            Bool.not_eq_false]
          simpa using hm
      simpa using hmem
    rw [hnil, List.append_nil]

/-- C8: a push with an empty local set reports the non-actionable
"Nothing to sync" failure toast, never issues the replace-all request, and
leaves the local set unchanged. -/
theorem C8_push_empty_local_fails_fast (fetch : FetchOutcome) :
    (handleSyncToDatabase [] fetch).replaceAllCalled = false ∧
    (handleSyncToDatabase [] fetch).toast =
      { title := "Nothing to sync"
        description := "You don't have any concepts to sync. Add some concepts first."
        variant := .destructive } ∧
    (handleSyncToDatabase [] fetch).localAfter = [] :=
  ⟨rfl, rfl, rfl⟩

/-- C9: a pull whose fetch succeeds with an empty remote set leaves the
in-memory set and the cache untouched and reports the informational
"No data found" toast (default, non-destructive variant); and in every case
either the local state is untouched or a successful non-empty remote set
replaced it. -/
theorem C9_pull_empty_remote_is_noop :
    (∀ (localSet cache : List Concept) (r : SyncResponse),
      r.success = true → r.concepts.getD [] = [] →
      handleSyncFromDatabase localSet cache (.response r) =
        { toast :=
            { title := "No data found"
              description := "No concepts found in the database to sync."
              variant := .default }
          localAfter := localSet
          cacheAfter := cache }) ∧
    (∀ (localSet cache : List Concept) (fetch : FetchOutcome),
      ((handleSyncFromDatabase localSet cache fetch).localAfter = localSet ∧
       (handleSyncFromDatabase localSet cache fetch).cacheAfter = cache) ∨
      (∃ r, fetch = .response r ∧ r.success = true ∧
        (handleSyncFromDatabase localSet cache fetch).localAfter =
          r.concepts.getD [] ∧
        (handleSyncFromDatabase localSet cache fetch).localAfter ≠ [] ∧
        (handleSyncFromDatabase localSet cache fetch).cacheAfter =
          (handleSyncFromDatabase localSet cache fetch).localAfter)) := by
  constructor
  · intro localSet cache r h1 h2
    simp [handleSyncFromDatabase, h1, h2]
  · intro localSet cache fetch
    cases fetch with
    | netError m => exact Or.inl ⟨rfl, rfl⟩
    | response r =>
      by_cases h1 : r.success = true
      · by_cases h2 : (r.concepts.getD []).isEmpty = true
        · refine Or.inl ?_
          constructor <;> simp [handleSyncFromDatabase, h1, h2]
        · refine Or.inr ⟨r, rfl, h1, ?_, ?_, ?_⟩ <;>
            simp [handleSyncFromDatabase, h1, h2] <;>
            simpa [List.isEmpty_iff] using h2
      · refine Or.inl ?_
        constructor <;> simp [handleSyncFromDatabase, h1]

theorem C9_pull_empty_remote_is_noop_witness :
    handleSyncFromDatabase [] [] (.response { success := true, concepts := some [] }) =
      { toast :=
          { title := "No data found"
            description := "No concepts found in the database to sync."
            variant := .default }
        localAfter := []
        cacheAfter := [] } :=
  C9_pull_empty_remote_is_noop.1 [] [] { success := true, concepts := some [] }
    rfl rfl

theorem findInvalidConcept_finds :
    ∀ l : List JsonValue, (∀ c ∈ l, c.isNull = false) →
      (∃ c ∈ l, ∃ f ∈ requiredFields, truthyOpt (jsGet c f) = false) →
      ∀ i : Nat, ∃ p, findInvalidConcept l i = .ok (some p) := by
  intro l
  induction l with
  | nil => intro _ hbad; simp at hbad
  | cons c rest ih =>
    intro hnn hbad i
    have hcn : c.isNull = false := hnn c (by simp)
    rcases hfind : requiredFields.find? (fun f => !truthyOpt (jsGet c f)) with - | f
    · -- the head record has no falsy required field: the witness is further on
      have hok : ∀ f ∈ requiredFields, truthyOpt (jsGet c f) = true := by
        intro f hf
        have := List.find?_eq_none.mp hfind f hf
        simpa using this
      obtain ⟨c', hmem, f, hf, hfal⟩ := hbad
      rw [List.mem_cons] at hmem
      rcases hmem with rfl | htl
      · rw [hok f hf] at hfal
        simp at hfal
      · obtain ⟨p, hp⟩ := ih (fun d hd => hnn d (by simp [hd]))
          ⟨c', htl, f, hf, hfal⟩ (i + 1)
        exact ⟨p, by simp [findInvalidConcept, hcn, hfind, hp]⟩
    · exact ⟨(i, f), by simp [findInvalidConcept, hcn, hfind]⟩

/-- C10: the store-level replace-all accepts a well-formed empty batch — it
clears the whole store, inserts nothing, and reports success with count 0 — so
a caller bypassing the client-side empty guard erases the store; and the
route's required-field validation runs before the delete: a batch containing a
record lacking a required field is rejected with a 400 and the store is left
unchanged. -/
theorem C10_replace_all_empty_batch_and_validation_order :
    (∀ store : List JsonValue,
      postSync store (.obj [("concepts", .arr [])]) =
        ([], { status := 200, success := true,
               message := some "Successfully synced 0 concepts to database",
               count := some 0 })) ∧
    (∀ (store : List JsonValue) (body : JsonValue) (concepts : List JsonValue),
      jsGet body "concepts" = some (.arr concepts) →
      (∀ c ∈ concepts, c.isNull = false) →
      (∃ c ∈ concepts, ∃ f ∈ requiredFields, truthyOpt (jsGet c f) = false) →
      (postSync store body).1 = store ∧
      (postSync store body).2.status = 400) := by
  constructor
  · intro store; rfl
  · intro store body concepts hg hnn hbad
    obtain ⟨p, hp⟩ := findInvalidConcept_finds concepts hnn hbad 0
    cases body with
    | null => simp [jsGet] at hg
    | bool b => exact ⟨by simp [postSync, hg, hp], by simp [postSync, hg, hp]⟩
    | num n => exact ⟨by simp [postSync, hg, hp], by simp [postSync, hg, hp]⟩
    | str s => exact ⟨by simp [postSync, hg, hp], by simp [postSync, hg, hp]⟩
    | arr xs => exact ⟨by simp [postSync, hg, hp], by simp [postSync, hg, hp]⟩
    | obj fs => exact ⟨by simp [postSync, hg, hp], by simp [postSync, hg, hp]⟩

theorem C10_replace_all_empty_batch_and_validation_order_witness :
    (postSync [.obj [("title", .str "kept")]]
        (.obj [("concepts", .arr [.obj [("topic", .str "T")]])])).1 =
      [.obj [("title", .str "kept")]] ∧
    (postSync [.obj [("title", .str "kept")]]
        (.obj [("concepts", .arr [.obj [("topic", .str "T")]])])).2.status = 400 :=
  C10_replace_all_empty_batch_and_validation_order.2
    [.obj [("title", .str "kept")]]
    (.obj [("concepts", .arr [.obj [("topic", .str "T")]])])
    [.obj [("topic", .str "T")]] rfl
    (by intro c hc; rw [List.mem_singleton] at hc; subst hc; rfl)
    ⟨.obj [("topic", .str "T")], by simp, "title", by simp [requiredFields],
      rfl⟩

/-! ## C2: which of the three required-field diagnostics fires -/

theorem filter_checkRequiredField_self (c : JsonValue) (idx : Nat)
    (f : String) :
    (checkRequiredField c idx f).filter
        (fun e => e.field == some f && e.etype == EType.error) =
      checkRequiredField c idx f := by
  unfold checkRequiredField
  split
  · simp [mkMissing]
  · split
    · split
      · split
        · simp [mkEmpty]
        · simp
      · simp [mkWrongType]
    · simp [mkMissing]

theorem filter_checkRequiredField_other {f g : String} (hne : f ≠ g)
    (c : JsonValue) (idx : Nat) :
    (checkRequiredField c idx g).filter
        (fun e => e.field == some f && e.etype == EType.error) = [] := by
  have hne' : ¬ g = f := fun h => hne h.symm
  unfold checkRequiredField
  split
  · simp [mkMissing, hne']
  · split
    · split
      · split
        · simp [mkEmpty, hne']
        · simp
      · simp [mkWrongType, hne']
    · simp [mkMissing, hne']

theorem filter_warnings_nil {l : List VError}
    (h : ∀ e ∈ l, e.etype = EType.warning) (f : String) :
    l.filter (fun e => e.field == some f && e.etype == EType.error) = [] := by
  rw [List.filter_eq_nil_iff]
  intro e he
  simp [h e he]

def c2Sample : JsonValue :=
  .obj [("title", .str ""), ("topic", .str "T"),
        ("definition", .str "D"), ("keyword", .str "K")]

/-- C2 counterexample: a record whose `title` is present as the empty string
receives the "Missing required field" diagnostic — not the claimed
"cannot be empty" one — because the source's first check is JS falsiness
(`!concept[field]`), which an empty string satisfies. -/
theorem C2_counterexample_empty_string_is_reported_missing :
    ((validateJsonContent 0 (.ok (.arr [c2Sample]))).errors.map
        fun e => e.message) = ["Missing required field: \"title\""] ∧
    ((validateJsonContent 0 (.ok (.arr [c2Sample]))).errors.filter
        fun e => e.message == "Field \"title\" cannot be empty") = [] :=
  ⟨by decide, by decide⟩

/-- C2 (amended): per record and required field at most one error diagnostic
fires, chosen in sequence — "missing" when the field is absent **or
JS-falsy** (empty string, `0`, `false`, `null`), "wrong type" when it is
present, truthy and not a string, and "empty" when it is a **non-empty**
string whose trimmed form is empty. -/
theorem C2_required_field_diagnostic_selection :
    ∀ (now idx : Nat) (seen : List String) (c : JsonValue) (f : String),
      objLike c = true → f ∈ requiredFields →
      ((validateRecord now idx seen c).1.filter
          (fun e => e.field == some f && e.etype == EType.error) =
        (if truthyOpt (jsGet c f) = false then [mkMissing f idx]
         else
           match jsGet c f with
           | some (.str s) => if jsTrim s = "" then [mkEmpty f idx] else []
           | _ => [mkWrongType f idx])) ∧
      ((validateRecord now idx seen c).1.filter
          (fun e => e.field == some f && e.etype == EType.error)).length ≤ 1 := by
  intro now idx seen c f hobj hf
  have hfst : (validateRecord now idx seen c).1 =
      (requiredFields.map (checkRequiredField c idx)).flatten ++
      unknownFieldWarnings c idx ++ (dupTitleCheck c idx seen).1 ++
      topicIDCheck c idx := by
    rw [validateRecord, if_pos hobj]
    dsimp only
    split
    · rfl
    · split <;> rfl
  have htopic : (topicIDCheck c idx).filter
      (fun e => e.field == some f && e.etype == EType.error) = [] := by
    have hne : f ≠ "topicID" := by
      intro h
      rw [h] at hf
      simp [requiredFields] at hf
    have hne' : ¬ "topicID" = f := fun h => hne h.symm
    unfold topicIDCheck
    split
    · rfl
    · rfl
    · simp [hne']
  have hblock : ((requiredFields.map (checkRequiredField c idx)).flatten).filter
      (fun e => e.field == some f && e.etype == EType.error) =
      checkRequiredField c idx f := by
    simp only [requiredFields, List.mem_cons, List.not_mem_nil, or_false] at hf
    simp only [requiredFields]
    rcases hf with rfl | rfl | rfl | rfl <;>
      simp only [List.map_cons, List.map_nil, List.flatten_cons,
        List.flatten_nil, List.filter_append, filter_checkRequiredField_self,
        List.append_nil] <;>
      rw [filter_checkRequiredField_other (by decide),
        filter_checkRequiredField_other (by decide),
        filter_checkRequiredField_other (by decide)] <;>
      simp
  have hmain : (validateRecord now idx seen c).1.filter
      (fun e => e.field == some f && e.etype == EType.error) =
      checkRequiredField c idx f := by
    rw [hfst, List.filter_append, List.filter_append, List.filter_append,
      hblock, htopic,
      filter_warnings_nil (fun e he => mem_unknownFieldWarnings he) f,
      filter_warnings_nil (fun e he => mem_dupTitleCheck he) f]
    simp
  rw [hmain]
  have heq2 : checkRequiredField c idx f =
      (if truthyOpt (jsGet c f) = false then [mkMissing f idx]
       else
         match jsGet c f with
         | some (.str s) => if jsTrim s = "" then [mkEmpty f idx] else []
         | _ => [mkWrongType f idx]) := by
    rcases hg : jsGet c f with - | v
    · simp [checkRequiredField, hg, truthyOpt]
    · cases v with
      | null => simp [checkRequiredField, hg, truthyOpt, truthy]
      | bool b =>
        cases b <;> simp [checkRequiredField, hg, truthyOpt, truthy]
      | num n =>
        by_cases hn : n = 0 <;>
          simp [checkRequiredField, hg, truthyOpt, truthy, hn]
      | str t =>
        by_cases hs : t = "" <;>
          simp [checkRequiredField, hg, truthyOpt, truthy, hs]
      | arr xs => simp [checkRequiredField, hg, truthyOpt, truthy]
      | obj fs => simp [checkRequiredField, hg, truthyOpt, truthy]
  refine ⟨heq2, ?_⟩
  rw [heq2]
  split
  · simp
  · split
    · split <;> simp
    · simp

theorem C2_required_field_diagnostic_selection_witness :
    ((validateRecord 0 0 [] c2Sample).1.filter
        (fun e => e.field == some "title" && e.etype == EType.error) =
      (if truthyOpt (jsGet c2Sample "title") = false then [mkMissing "title" 0]
       else
         match jsGet c2Sample "title" with
         | some (.str s) => if jsTrim s = "" then [mkEmpty "title" 0] else []
         | _ => [mkWrongType "title" 0])) ∧
    ((validateRecord 0 0 [] c2Sample).1.filter
        (fun e => e.field == some "title" && e.etype == EType.error)).length ≤ 1 :=
  C2_required_field_diagnostic_selection 0 0 [] c2Sample "title" (by decide)
    (by simp [requiredFields])

/-! ## C4: determinism of the Validator across invocations

The only clock-dependent step is the normalisation default
`concept.createdAt ? new Date(concept.createdAt) : new Date()` (and likewise
`updatedAt`): diagnostics, counts and every other field are invocation
independent. -/

/-- The timestamp-free projection of a normalised concept. -/
structure ConceptCore where
  _id : Option String
  topicID : Int
  topic : String
  title : String
  definition : String
  detailedExplanation : String
  whenToUse : String
  whyNeed : String
  codeExample : String
  keyword : String
  differences : String
deriving DecidableEq

def Concept.core (k : Concept) : ConceptCore :=
  ⟨k._id, k.topicID, k.topic, k.title, k.definition, k.detailedExplanation,
   k.whenToUse, k.whyNeed, k.codeExample, k.keyword, k.differences⟩

theorem normalizeConcept_core_eq (now1 now2 : Nat) (c : JsonValue) :
    (normalizeConcept now1 c).map Concept.core =
      (normalizeConcept now2 c).map Concept.core := by
  unfold normalizeConcept
  cases trimField c "topic" with
  | error e => rfl
  | ok s1 =>
  cases trimField c "title" with
  | error e => rfl
  | ok s2 =>
  cases trimField c "definition" with
  | error e => rfl
  | ok s3 =>
  cases trimField c "detailedExplanation" with
  | error e => rfl
  | ok s4 =>
  cases trimField c "whenToUse" with
  | error e => rfl
  | ok s5 =>
  cases trimField c "whyNeed" with
  | error e => rfl
  | ok s6 =>
  cases trimField c "codeExample" with
  | error e => rfl
  | ok s7 =>
  cases trimField c "keyword" with
  | error e => rfl
  | ok s8 =>
  cases trimField c "differences" with
  | error e => rfl
  | ok s9 => rfl

theorem validateRecord_now_invariant (now1 now2 idx : Nat)
    (seen : List String) (c : JsonValue) :
    (validateRecord now1 idx seen c).1 = (validateRecord now2 idx seen c).1 ∧
    (validateRecord now1 idx seen c).2.1 =
      (validateRecord now2 idx seen c).2.1 ∧
    (validateRecord now1 idx seen c).2.2.map (Option.map Concept.core) =
      (validateRecord now2 idx seen c).2.2.map (Option.map Concept.core) := by
  unfold validateRecord
  by_cases hobj : objLike c = true
  · simp only [hobj, if_true]
    by_cases hany : ((requiredFields.map (checkRequiredField c idx)).flatten ++
        unknownFieldWarnings c idx ++ (dupTitleCheck c idx seen).1 ++
        topicIDCheck c idx).any (fun e => e.etype == EType.error) = true
    · simp only [hany, if_true]
      refine ⟨?_, ?_, ?_⟩ <;> trivial
    · simp only [hany, Bool.false_eq_true, if_false]
      have hcore := normalizeConcept_core_eq now1 now2 c
      cases h1 : normalizeConcept now1 c with
      | ok k1 =>
        cases h2 : normalizeConcept now2 c with
        | ok k2 =>
          rw [h1, h2] at hcore
          simp only [Except.map] at hcore
          injection hcore with hcc
          refine ⟨by trivial, by trivial, ?_⟩
          simp [Except.map, Option.map, hcc]
        | error m2 => rw [h1, h2] at hcore; simp [Except.map] at hcore
      | error m1 =>
        cases h2 : normalizeConcept now2 c with
        | ok k2 => rw [h1, h2] at hcore; simp [Except.map] at hcore
        | error m2 =>
          rw [h1, h2] at hcore
          simp only [Except.map, Except.error.injEq] at hcore
          refine ⟨by trivial, by trivial, ?_⟩
          simp [Except.map, hcore]
  · simp [hobj]

theorem processConcepts_now_invariant (now1 now2 : Nat) :
    ∀ (l : List JsonValue) (idx : Nat) (seen : List String)
      (accE : List VError) (accV1 accV2 : List Concept),
      accV1.map Concept.core = accV2.map Concept.core →
      (processConcepts now1 l idx seen accE accV1).1 =
        (processConcepts now2 l idx seen accE accV2).1 ∧
      (processConcepts now1 l idx seen accE accV1).2.1.map Concept.core =
        (processConcepts now2 l idx seen accE accV2).2.1.map Concept.core ∧
      (processConcepts now1 l idx seen accE accV1).2.2 =
        (processConcepts now2 l idx seen accE accV2).2.2 := by
  intro l
  induction l with
  | nil =>
    intro idx seen accE accV1 accV2 hv
    exact ⟨by trivial, hv, by trivial⟩
  | cons c rest ih =>
    intro idx seen accE accV1 accV2 hv
    obtain ⟨he, hs, hx⟩ := validateRecord_now_invariant now1 now2 idx seen c
    rcases hr1 : validateRecord now1 idx seen c with ⟨errs1, seen1, res1⟩
    rcases hr2 : validateRecord now2 idx seen c with ⟨errs2, seen2, res2⟩
    rw [hr1, hr2] at he hs hx
    dsimp only at he hs hx
    subst he hs
    cases res1 with
    | error m1 =>
      cases res2 with
      | error m2 =>
        simp only [Except.map] at hx
        injection hx with hm
        subst hm
        simp only [processConcepts, hr1, hr2]
        exact ⟨by trivial, hv, by trivial⟩
      | ok o2 => simp [Except.map] at hx
    | ok o1 =>
      cases res2 with
      | error m2 => simp [Except.map] at hx
      | ok o2 =>
        simp only [Except.map] at hx
        injection hx with ho
        cases o1 with
        | none =>
          cases o2 with
          | none =>
            simp only [processConcepts, hr1, hr2]
            exact ih (idx + 1) seen1 (accE ++ errs1) accV1 accV2 hv
          | some k2 => simp at ho
        | some k1 =>
          cases o2 with
          | none => simp at ho
          | some k2 =>
            simp only [Option.map] at ho
            injection ho with hk
            simp only [processConcepts, hr1, hr2]
            refine ih (idx + 1) seen1 (accE ++ errs1) (accV1 ++ [k1])
              (accV2 ++ [k2]) ?_
            simp [hv, hk]

def c4Sample : JsonValue :=
  .obj [("title", .str "B"), ("topic", .str "T"),
        ("definition", .str "D"), ("keyword", .str "K")]

/-- C4 counterexample: on a record that omits `createdAt`/`updatedAt`, two
invocations of the Validator at different instants return different results —
the accepted record's `createdAt` is the invocation time — so the function is
not deterministic across invocations as claimed. -/
theorem C4_counterexample_clock_dependence :
    validateJsonContent 0 (.ok (.arr [c4Sample])) ≠
      validateJsonContent 1 (.ok (.arr [c4Sample])) := by
  intro h
  have h2 := congrArg
    (fun r => r.validConcepts.map fun k => k.createdAt) h
  have e0 : (validateJsonContent 0
      (.ok (.arr [c4Sample]))).validConcepts.map (fun k => k.createdAt) =
      [JsDate.now 0] := rfl
  have e1 : (validateJsonContent 1
      (.ok (.arr [c4Sample]))).validConcepts.map (fun k => k.createdAt) =
      [JsDate.now 1] := rfl
  simp only [] at h2
  rw [e0, e1] at h2
  simp at h2

/-- C4 (amended): the Validator is deterministic in everything except the
clock-defaulted timestamps — for any two invocation instants the diagnostics,
the validity flag, the total count and every non-timestamp field of every
accepted record coincide (and an invocation is a pure function of input and
instant); full equality of results fails only through `createdAt`/`updatedAt`
defaults on records that omit them. -/
theorem C4_validator_deterministic_up_to_timestamps :
    ∀ (now1 now2 : Nat) (pr : ParseResult),
      (validateJsonContent now1 pr).isValid =
        (validateJsonContent now2 pr).isValid ∧
      (validateJsonContent now1 pr).errors =
        (validateJsonContent now2 pr).errors ∧
      (validateJsonContent now1 pr).totalConcepts =
        (validateJsonContent now2 pr).totalConcepts ∧
      (validateJsonContent now1 pr).validConcepts.map Concept.core =
        (validateJsonContent now2 pr).validConcepts.map Concept.core := by
  intro now1 now2 pr
  cases pr with
  | failed msg => refine ⟨?_, ?_, ?_, ?_⟩ <;> trivial
  | ok v =>
    cases v with
    | arr records =>
      by_cases hre : records.isEmpty
      · simp only [validateJsonContent, hre, if_true]
        refine ⟨?_, ?_, ?_, ?_⟩ <;> trivial
      · obtain ⟨he, hv, hx⟩ := processConcepts_now_invariant now1 now2
          records 0 [] [] [] [] rfl
        rcases hp1 : processConcepts now1 records 0 [] [] [] with
          ⟨errs1, valids1, thr1⟩
        rcases hp2 : processConcepts now2 records 0 [] [] [] with
          ⟨errs2, valids2, thr2⟩
        rw [hp1, hp2] at he hv hx
        dsimp only at he hv hx
        subst he hx
        have hlen : valids1.length = valids2.length := by
          have := congrArg List.length hv
          simpa using this
        cases thr1 with
        | none =>
          simp only [validateJsonContent, hre, Bool.false_eq_true, if_false,
            hp1, hp2, hlen]
          exact ⟨by trivial, by trivial, by trivial, hv⟩
        | some m =>
          simp only [validateJsonContent, hre, Bool.false_eq_true, if_false,
            hp1, hp2]
          refine ⟨?_, ?_, ?_, ?_⟩ <;> trivial
    | null => refine ⟨?_, ?_, ?_, ?_⟩ <;> trivial
    | bool b => refine ⟨?_, ?_, ?_, ?_⟩ <;> trivial
    | num n => refine ⟨?_, ?_, ?_, ?_⟩ <;> trivial
    | str s => refine ⟨?_, ?_, ?_, ?_⟩ <;> trivial
    | obj fields => refine ⟨?_, ?_, ?_, ?_⟩ <;> trivial

end ConceptsApp
